import Mathlib

/-!
Verification of the supabase-lab config parser, command dispatcher and dev
utilities, shallowly embedded from the Python sources (`core.py`, `session.py`,
`lab.py`, `dev.py`, `python/lab.py`, `python/dev.py`, `python/backend.py`).

Strings are modelled as `List Char`; Python dicts as association lists or as
functions into `Option`; the concrete regular expressions used by the code are
embedded as executable functions mirroring their backtracking behaviour.
Whitespace and word characters are modelled over ASCII (the inputs of interest
are ASCII config files and REPL lines, which contain no newline characters).
-/

namespace SupabaseLab

abbrev Chars := List Char

/-- The non-printable null character `'\x00'` used as `SPACE_DELIM` in
`session.py` and `dev.py`. -/
def SPACE_DELIM : Char := '\x00'

/-- ASCII fragment of Python's `str.strip` / regex `\s` whitespace class. -/
def isPySpace (c : Char) : Bool :=
  c = ' ' || c = '\t' || c = '\n' || c = '\r' || c = '\x0b' || c = '\x0c'

/-- ASCII lower-casing, embedding Python `str.lower` on the ASCII range. -/
def lowerChar (c : Char) : Char :=
  if 'A' ≤ c ∧ c ≤ 'Z' then Char.ofNat (c.toNat + 32) else c

/-- Python `str.lower` on a character list. -/
def pyLower (s : Chars) : Chars := s.map lowerChar

/-- Python `str.strip`: drop whitespace from both ends. -/
def pyStrip (s : Chars) : Chars :=
  ((s.dropWhile isPySpace).reverse.dropWhile isPySpace).reverse

/-! ### The whitespace-preserving escaping of config values

`session.py` line 44 applies
`re.sub(r'\{([^}]*)\}', lambda m: '{' + m.group(1).replace(' ', SPACE_DELIM) + '}', value)`:
leftmost, non-overlapping matches of `\{[^}]*\}` have their inner spaces
replaced by `'\x00'`. `escRun false` scans outside any match; at a `'{'` that
has a later `'}'` a match begins and `escRun true` replaces spaces up to the
first `'}'`. A `'{'` with no `'}'` anywhere after it starts no match, and then
no later position can start one either, so the rest is copied unchanged. -/
def escRun : Bool → Chars → Chars
  | _, [] => []
  | false, c :: rest =>
    if c = '{' && rest.contains '}' then c :: escRun true rest
    else c :: escRun false rest
  | true, c :: rest =>
    if c = '}' then c :: escRun false rest
    else (if c = ' ' then SPACE_DELIM else c) :: escRun true rest

/-- The value escaping of `session.get_config` (`session.py` line 44). -/
def sessionEscape (v : Chars) : Chars := escRun false v

/-- The value escaping of `core.get_config` (`core.py` line 106):
`m.group(2).replace(' ', '\x00')` replaces every space of the value. -/
def coreEscape (v : Chars) : Chars :=
  v.map (fun c => if c = ' ' then SPACE_DELIM else c)

/-! ### The `key = value` line match

Both `get_config` implementations try `re.match(r'^(\S*)\s*=\s*(.*)$', line)`
and two fallback patterns (`core.py` lines 99-103, `session.py` lines 37-41).
The fallbacks `^(\S*)\s*=()$` and `^(\S*)\s*=(\{.*\})$` each only match lines
the first pattern also matches, so only the first pattern matters.  `kvGo`
embeds it with Python's greedy backtracking: `(\S*)` prefers the longest
non-space prefix for which the tail still matches `\s*=\s*(.*)`. -/

/-- Match `\s*=\s*(.*)$` at the current position, returning the value group. -/
def matchEqTail (l : Chars) : Option Chars :=
  match l.dropWhile isPySpace with
  | '=' :: rest => some (rest.dropWhile isPySpace)
  | _ => none

/-- Greedy backtracking for `^(\S*)\s*=\s*(.*)$`; `pre` is the reversed prefix
consumed so far by `(\S*)`. -/
def kvGo (pre : Chars) : Chars → Option (Chars × Chars)
  | [] => (matchEqTail []).map (fun v => (pre.reverse, v))
  | c :: rest =>
    if isPySpace c then (matchEqTail (c :: rest)).map (fun v => (pre.reverse, v))
    else
      match kvGo (c :: pre) rest with
      | some r => some r
      | none => (matchEqTail (c :: rest)).map (fun v => (pre.reverse, v))

/-- `re.match(r'^(\S*)\s*=\s*(.*)$', line)`, returning `(key, value)`. -/
def matchKVLine (line : Chars) : Option (Chars × Chars) := kvGo [] line

/-! ### Boolean coercion and the stored config value -/

/-- Values stored in the config mapping: Python `True`/`False` or a string. -/
inductive CVal : Type where
  | bool (b : Bool)
  | str (s : Chars)
deriving DecidableEq, Repr

/-- `['t', 'true', 'y', '1']` from the coercion test. -/
def boolTrueTokens : List Chars :=
  [['t'], ['t','r','u','e'], ['y'], ['1']]

/-- `['f', 'false', 'n', '0']` from the coercion test. -/
def boolFalseTokens : List Chars :=
  [['f'], ['f','a','l','s','e'], ['n'], ['0']]

/-- The boolean coercion applied by both `get_config` implementations to the
(escaped) value before storing it. -/
def coerceBool (v : Chars) : CVal :=
  if pyLower v ∈ boolTrueTokens then .bool true
  else if pyLower v ∈ boolFalseTokens then .bool false
  else .str v

/-- The value `session.get_config` stores for a matched raw value `v`. -/
def sessionStoreValue (v : Chars) : CVal := coerceBool (sessionEscape v)

/-- The value `core.get_config` stores for a matched raw value `v`. -/
def coreStoreValue (v : Chars) : CVal := coerceBool (coreEscape v)

/-! ### The config mapping and line processing -/

/-- The config mapping, as a function from keys to stored values. -/
abbrev Cfg := Chars → Option CVal

/-- Python dict item assignment `config[key] = value`. -/
def cfgSet (cfg : Cfg) (k : Chars) (v : CVal) : Cfg :=
  fun k' => if k' = k then some v else cfg k'

/-- The empty config mapping. -/
def emptyCfg : Cfg := fun _ => none

/-- One loop iteration of `get_config` (either implementation, parametrised by
the store-value function): strip the line, skip comments and blanks, and on a
`key = value` match store the (escaped, coerced) value.  A non-matching line
only prints `f"{line}?"` and leaves the mapping unchanged. -/
def processLine (store : Chars → CVal) (cfg : Cfg) (rawLine : Chars) : Cfg :=
  let line := pyStrip rawLine
  if line.head? = some '#' ∨ line = [] then cfg
  else if line = ['\n'] then cfg
  else
    match matchKVLine line with
    | some (k, v) => cfgSet cfg k (store v)
    | none => cfg

/-- `session.get_config` over a list of already-read input lines. -/
def session_get_config (lines : List Chars) (cfg : Cfg) : Cfg :=
  lines.foldl (processLine sessionStoreValue) cfg

/-- `core.get_config` over a list of already-read input lines. -/
def core_get_config (lines : List Chars) (cfg : Cfg) : Cfg :=
  lines.foldl (processLine coreStoreValue) cfg

/-- The space-escaping relation between the two parsers' stored values:
`core`'s value is `session`'s with every remaining space escaped. -/
def cvalCoreOf : CVal → CVal
  | .bool b => .bool b
  | .str s => .str (coreEscape s)

/-! ### Dot-reference substitution (`lab.py` / `python/lab.py`, `parse_dot_references`)

The REPL substitutes `re.sub(r'\.\w+', parse_dot_references, line)`: each
leftmost, non-overlapping token `.word` is replaced by the config value of
`word` (booleans via `str`), with the replacement for the key `password`
masked by `'*' * len(ref_value)`; an absent key keeps `match.group(0)`.
`\w` is modelled over ASCII word characters. -/

/-- ASCII word character (`\w`). -/
def isWordChar (c : Char) : Bool :=
  ('a' ≤ c && c ≤ 'z') || ('A' ≤ c && c ≤ 'Z') || ('0' ≤ c && c ≤ '9') || c = '_'

/-- Python `str(True)` / `str(False)`. -/
def pyStrBool (b : Bool) : Chars :=
  if b then ("True" : String).toList else ("False" : String).toList

/-- The config key whose substituted value is masked. -/
def passwordKey : Chars := ("password" : String).toList

/-- The replacement computed by `parse_dot_references` for a matched token
`'.' ++ w`: the config value of `w` (`str` of a boolean; the full token when
the key is absent), then masked with `'*'` when `w = "password"`. -/
def dotRefValue (cfg : Cfg) (w : Chars) : Chars :=
  let rv : Chars :=
    match cfg w with
    | some (.bool b) => pyStrBool b
    | some (.str s) => s
    | none => '.' :: w
  if w = passwordKey then List.replicate rv.length '*' else rv

/-- The scan of `re.sub(r'\.\w+', parse_dot_references, line)`: look for `'.'`
followed by a maximal nonempty run of word characters and replace each such
leftmost, non-overlapping token.  The fuel argument only bounds the
recursion; every step consumes at least one character, so `l.length` fuel
always suffices. -/
def subDotsGo (cfg : Cfg) : Nat → Chars → Chars
  | 0, l => l
  | _ + 1, [] => []
  | fuel + 1, c :: rest =>
    if c = '.' then
      if (rest.takeWhile isWordChar).isEmpty then '.' :: subDotsGo cfg fuel rest
      else dotRefValue cfg (rest.takeWhile isWordChar) ++
        subDotsGo cfg fuel (rest.drop (rest.takeWhile isWordChar).length)
    else c :: subDotsGo cfg fuel rest

/-- `re.sub(r'\.\w+', parse_dot_references, line)` over a whole line. -/
def parse_dot_references (cfg : Cfg) (l : Chars) : Chars :=
  subDotsGo cfg l.length l

/-! ### The command dispatcher (`lab.py` / `python/lab.py`, `parse`) -/

/-- `re.search(r'^(\S*)\s(.*)$', line)`: split at the first whitespace
character; no whitespace means `command = line` and no argument string. -/
def splitCmd (line : Chars) : Chars × Option Chars :=
  let cmd := line.takeWhile (fun c => !(isPySpace c))
  match line.drop cmd.length with
  | [] => (line, none)
  | _ :: rest => (cmd, some rest)

/-- The visible actions of one `parse` call: a printed line, or dispatch to
one of the handlers (whose own effects live in the backend / session). -/
inductive LabEffect : Type where
  | printOut (s : Chars)
  | loginCmd
  | logoutCmd
  | exitCmd
  | debugCmd (a : Option Chars)
  | devCmd (a : Option Chars)
deriving DecidableEq, Repr

/-- The unknown-command output of `parse`. -/
def usageOutput (command : Chars) : List LabEffect :=
  [.printOut (command ++ ("?" : String).toList),
   .printOut ("   login" : String).toList,
   .printOut ("   exit" : String).toList,
   .printOut ("   print [text]" : String).toList]

/-- `parse` from `lab.py` (v0.0.3): dispatch on the command word. -/
def lab_parse (line : Chars) : List LabEffect :=
  let p := splitCmd line
  let command := p.1
  let args := p.2
  if command = ("login" : String).toList then [.loginCmd]
  else if command = ("exit" : String).toList then [.exitCmd]
  else if command = ("print" : String).toList then [.printOut (args.getD [])]
  else if command = ("logout" : String).toList then [.logoutCmd]
  else if command = ("debug" : String).toList then [.debugCmd args]
  else if command = ("dev" : String).toList then [.devCmd args]
  else usageOutput command

/-- `parse` from `python/lab.py` (v0.0.7py): identical, except that a
whitespace-empty command returns silently first. -/
def pylab_parse (line : Chars) : List LabEffect :=
  let p := splitCmd line
  let command := p.1
  let args := p.2
  if pyStrip command = [] then []
  else if command = ("login" : String).toList then [.loginCmd]
  else if command = ("exit" : String).toList then [.exitCmd]
  else if command = ("print" : String).toList then [.printOut (args.getD [])]
  else if command = ("logout" : String).toList then [.logoutCmd]
  else if command = ("debug" : String).toList then [.debugCmd args]
  else if command = ("dev" : String).toList then [.devCmd args]
  else usageOutput command

/-- The fixed command set of the dispatcher. -/
def knownCommands : List Chars :=
  [("login" : String).toList, ("logout" : String).toList,
   ("exit" : String).toList, ("print" : String).toList,
   ("debug" : String).toList, ("dev" : String).toList]

/-- Run the effects of a `parse` call against any state semantics `f`. -/
def applyEffects {σ : Type} (f : LabEffect → σ → σ)
    (effs : List LabEffect) (st : σ) : σ :=
  effs.foldl (fun s e => f e s) st

/-! ### Association lists as Python dicts -/

/-- Python dict lookup on an association list. -/
def alookup {K V : Type} [DecidableEq K] : List (K × V) → K → Option V
  | [], _ => none
  | (k', v) :: rest, k => if k = k' then some v else alookup rest k

/-- Python dict item assignment: replace the entry when the key is present,
append a new entry otherwise. -/
def dictSet {K V : Type} [DecidableEq K]
    (l : List (K × V)) (k : K) (v : V) : List (K × V) :=
  if (alookup l k).isSome then l.map (fun p => if p.1 = k then (k, v) else p)
  else l ++ [(k, v)]

/-! ### The beep timer (`python/dev.py`) -/

/-- The `core.Session.config['beeping']` registry: beep ids to run status. -/
abbrev Reg := List (Nat × Bool)

/-- `beeping(n, False)` (`python/dev.py` line 121): set the entry for id `n`
to `False` (creating it when absent, as dict assignment does). -/
def stopOne (n : Nat) (reg : Reg) : Reg := dictSet reg n false

/-- `beeping(None)` (`python/dev.py` lines 122-124): set every entry to
`False`. -/
def stopAll (reg : Reg) : Reg := reg.map (fun p => (p.1, false))

/-- ASCII digit (`\d`). -/
def isAsciiDigit (c : Char) : Bool := '0' ≤ c && c ≤ '9'

/-- Python `int` on a digit string. -/
def digitsToNat (ds : Chars) : Nat :=
  ds.foldl (fun acc c => 10 * acc + (c.toNat - '0'.toNat)) 0

/-- The stop-handling prefix of `beep` (`python/dev.py` lines 156-164):
after `args.strip()`, `re.match(r'^stop (\d*)$', args)` stops one id and
`args == 'stop'` stops all; otherwise (`none`) `beep` goes on to start a
timer.  Since the argument is stripped, the regex's empty-digits case
(`int('')`, a `ValueError`) is unreachable: a stripped string cannot end in
a space. -/
def beep_stop_command (args : Chars) (reg : Reg) : Option Reg :=
  let a := pyStrip args
  if a.take 5 = ("stop " : String).toList ∧ (a.drop 5).all isAsciiDigit then
    some (stopOne (digitsToNat (a.drop 5)) reg)
  else if a = ("stop" : String).toList then some (stopAll reg)
  else none

/-- Program counter of one `run_beep` loop (`python/dev.py` lines 143-152):
about to test `beeping(beep_id)`, inside `asyncio.sleep`, or exited. -/
inductive BeepPC : Type where
  | check
  | sleeping
  | done
deriving DecidableEq

/-- State of one `run_beep` loop together with the beeping registry. -/
structure BeepState : Type where
  reg : Reg
  pc : BeepPC

/-- Transition labels: the beep print, or anything silent. -/
inductive BeepLbl : Type where
  | beepPrint
  | silent
deriving DecidableEq

/-- Small-step semantics of one `run_beep beep_id ...` loop interleaved (at
its `await` points, cooperatively) with the rest of the program.  The loop
prints iff its registry entry is `True` (a missing entry raises `KeyError`,
which also ends the loop without printing).  Environment steps are the stop
commands plus any registry change that does not set this id's entry to
`True`: by `get_beep_id` a new beep only ever sets an id that is absent from
the registry to `True`, and this loop's id stays a registry key (value
`True` or `False`) until its own `beep` caller deletes it after the loop was
cancelled and awaited, so no reachable write turns this id back on. -/
inductive beep_step (id : Nat) : BeepState → BeepLbl → BeepState → Prop where
  | check_true {reg} (h : alookup reg id = some true) :
      beep_step id ⟨reg, .check⟩ .beepPrint ⟨reg, .sleeping⟩
  | check_stop {reg} (h : alookup reg id ≠ some true) :
      beep_step id ⟨reg, .check⟩ .silent ⟨reg, .done⟩
  | wake {reg} :
      beep_step id ⟨reg, .sleeping⟩ .silent ⟨reg, .check⟩
  | env_stop_one {reg pc} (n : Nat) :
      beep_step id ⟨reg, pc⟩ .silent ⟨stopOne n reg, pc⟩
  | env_stop_all {reg pc} :
      beep_step id ⟨reg, pc⟩ .silent ⟨stopAll reg, pc⟩
  | env_other {reg pc} (reg' : Reg)
      (h : alookup reg id ≠ some true → alookup reg' id ≠ some true) :
      beep_step id ⟨reg, pc⟩ .silent ⟨reg', pc⟩

/-- Finite runs of `beep_step`, recording the emitted labels. -/
inductive beep_steps (id : Nat) : BeepState → List BeepLbl → BeepState → Prop where
  | nil (s) : beep_steps id s [] s
  | cons {s1 l s2 ls s3} :
      beep_step id s1 l s2 → beep_steps id s2 ls s3 → beep_steps id s1 (l :: ls) s3

/-! ### Beep id allocation (`python/dev.py` lines 129-141) -/

/-- Largest key of the registry (`0` when empty). -/
def maxKey (reg : Reg) : Nat := reg.foldr (fun p m => max p.1 m) 0

/-- The `while True` search of `get_beep_id`: first id `≥ i` not in the
registry, with explicit fuel (the loop terminates because the registry is
finite; `maxKey reg + 2` fuel always suffices). -/
def findFree (reg : Reg) : Nat → Nat → Nat
  | i, 0 => i
  | i, fuel + 1 => if (alookup reg i).isSome then findFree reg (i + 1) fuel else i

/-- `get_beep_id` on an existing registry: smallest id not in the registry. -/
def get_beep_id (reg : Reg) : Nat := findFree reg 0 (maxKey reg + 2)

/-- `if 'beeping' not in core.Session.config: ... = {}`: the registry used by
`get_beep_id`, created empty when absent. -/
def ensure_beeping (o : Option Reg) : Reg := o.getD []

/-- `del_beep_id` (`python/dev.py` lines 139-141): delete the id when
present. -/
def del_beep_id (reg : Reg) (n : Nat) : Reg :=
  if (alookup reg n).isSome then reg.filter (fun p => p.1 != n) else reg

/-! ### Channel subscription (`python/backend.py`, `subscribe_channel`) -/

/-- Result of `subscribe_channel`: Python `False`, or a subscription. -/
inductive SubRes (α : Type) : Type where
  | fail
  | sub (s : α)
deriving DecidableEq

/-- `subscribe_channel(channel_name, event, force)` over an abstract
subscription type `α`: `connected` embeds `check_connection()`, `newSub` the
object returned by `channel.subscribe(...)`, and `truthy` Python truthiness,
under which `register_channel` stores the subscription.  The registry
`core.Session.subscriptions` is an association list keyed by channel name. -/
def subscribe_channel {α : Type} (connected : Bool) (truthy : α → Bool)
    (newSub : α) (force : Bool) (subs : List (Chars × α)) (name : Chars) :
    SubRes α × List (Chars × α) :=
  if ¬connected then (.fail, subs)
  else
    match alookup subs name with
    | some s => (.sub s, subs)
    | none =>
      if ¬force then (.fail, subs)
      else if truthy newSub then (.sub newSub, dictSet subs name newSub)
      else (.sub newSub, subs)

/-! ### Sign-in (`python/backend.py` lines 299-322, `core.py` lines 240-263) -/

/-- The authentication state touched by `sign_in`: `jwt_token` and the
authenticated flag (`Session.authenticated` / `Main.session_active`). -/
structure AuthSt : Type where
  jwt : Option Chars
  authenticated : Bool
deriving DecidableEq

/-- The messages `sign_in` prints, abstracted to tags. -/
inductive SignInOut : Type where
  | invalidCreds
  | loggingIn
  | signInError
  | greeting
deriving DecidableEq

/-- `backend.sign_in(email, password)`: returns the new state, the printed
messages and whether the backend sign-in call was made.  `resp` is the
outcome of `supabase.auth.sign_in_with_password` (`none` models a raised
exception, `some token` a response carrying an access token). -/
def backend_sign_in (resp : Option Chars) (email password : Chars)
    (st : AuthSt) : AuthSt × List SignInOut × Bool :=
  if email = [] ∨ password = [] then (st, [.invalidCreds], false)
  else
    match resp with
    | none => (⟨st.jwt, false⟩, [.loggingIn, .signInError], true)
    | some tok => (⟨some tok, true⟩, [.loggingIn, .greeting], true)

/-- `core.sign_in(email, password)`: same guard and shape (the flag is
`Main.session_active` there). -/
def core_sign_in (resp : Option Chars) (email password : Chars)
    (st : AuthSt) : AuthSt × List SignInOut × Bool :=
  if email = [] ∨ password = [] then (st, [.invalidCreds], false)
  else
    match resp with
    | none => (⟨st.jwt, false⟩, [.loggingIn, .signInError], true)
    | some tok => (⟨some tok, true⟩, [.loggingIn, .greeting], true)

/-! ### Time suffix conversion (`python/dev.py` lines 24, 194-202) -/

/-- `TIME_SUFFIX_DICT = {'': 1, 's': 1, 'm': 60, 'h': 60 * 60}`, single-char
part (the empty suffix is handled at the call site). -/
def TIME_SUFFIX_DICT (c : Char) : Option Nat :=
  if c = 's' then some 1
  else if c = 'm' then some 60
  else if c = 'h' then some (60 * 60)
  else none

/-- Outcome of converting a beep interval/duration string to seconds. -/
inductive TimeConv : Type where
  | seconds (n : Nat)
  | unconverted
  | pyError
deriving DecidableEq, Repr

/-- `re.match(rf'^(\d*)([smhSMH]?)$', s)` followed by
`float(m.group(1)) * TIME_SUFFIX_DICT[time_suffix]`:
`seconds` when the match and both lookups succeed (digit values are
integral, so `Nat` is exact), `unconverted` when the regex does not match
(the string is left in place and later crashes `asyncio.sleep`), and
`pyError` when `float('')` raises `ValueError` or an uppercase suffix
raises `KeyError` (absent from `TIME_SUFFIX_DICT`). -/
def convert_time (s : Chars) : TimeConv :=
  let ds := s.takeWhile isAsciiDigit
  match s.drop ds.length with
  | [] => if ds = [] then .pyError else .seconds (digitsToNat ds * 1)
  | [c] =>
    if c = 's' || c = 'm' || c = 'h' || c = 'S' || c = 'M' || c = 'H' then
      match TIME_SUFFIX_DICT c with
      | some mult => if ds = [] then .pyError else .seconds (digitsToNat ds * mult)
      | none => .pyError
    else .unconverted
  | _ => .unconverted

/-! ## Helper lemmas -/

lemma escRun_nil (m : Bool) : escRun m [] = [] := by cases m <;> rfl

lemma escRun_false_cons (c : Char) (rest : Chars) :
    escRun false (c :: rest) =
      if c = '{' && rest.contains '}' then c :: escRun true rest
      else c :: escRun false rest := rfl

lemma escRun_true_cons (c : Char) (rest : Chars) :
    escRun true (c :: rest) =
      if c = '}' then c :: escRun false rest
      else (if c = ' ' then SPACE_DELIM else c) :: escRun true rest := rfl

/-- A value without `'{'` is left unchanged by the session escaping. -/
lemma escRun_of_no_lbrace (v : Chars) (h : '{' ∉ v) : escRun false v = v := by
  induction v with
  | nil => rfl
  | cons c rest ih =>
    have hc : ¬ c = '{' := fun hc => h (hc ▸ List.mem_cons_self c rest)
    have hr : '{' ∉ rest := fun hm => h (List.mem_cons_of_mem c hm)
    rw [escRun_false_cons]
    simp [hc, ih hr]

/-- A value without `'}'` is left unchanged by the session escaping (no
brace group can close, so no match exists). -/
lemma escRun_of_no_rbrace (v : Chars) (h : '}' ∉ v) : escRun false v = v := by
  induction v with
  | nil => rfl
  | cons c rest ih =>
    have hr : '}' ∉ rest := fun hm => h (List.mem_cons_of_mem c hm)
    have hcontains : rest.contains '}' = false := by
      rcases hcon : rest.contains '}' with _ | _
      · rfl
      · exact absurd (List.elem_iff.mp hcon) hr
    rw [escRun_false_cons, hcontains]
    simp [ih hr]

/-- A value without spaces is left unchanged by the core escaping. -/
lemma coreEscape_of_no_space (v : Chars) (h : ' ' ∉ v) : coreEscape v = v := by
  induction v with
  | nil => rfl
  | cons c rest ih =>
    have hc : ¬ c = ' ' := fun hc => h (hc ▸ List.mem_cons_self c rest)
    have hr : ' ' ∉ rest := fun hm => h (List.mem_cons_of_mem c hm)
    simp only [coreEscape, List.map_cons, if_neg hc]
    exact congrArg _ (ih hr)

/-- If the session escaping produced no `'\x00'`, it changed nothing. -/
lemma escRun_of_no_nul (v : Chars) :
    ∀ m, SPACE_DELIM ∉ escRun m v → escRun m v = v := by
  induction v with
  | nil => intro m _; cases m <;> rfl
  | cons c rest ih =>
    intro m h
    cases m with
    | false =>
      rw [escRun_false_cons] at h ⊢
      by_cases hb : (decide (c = '{') && rest.contains '}') = true
      · simp only [hb, if_pos] at h ⊢
        have : SPACE_DELIM ∉ escRun true rest := fun hm => h (List.mem_cons_of_mem c hm)
        rw [ih true this]
      · simp only [Bool.not_eq_true] at hb
        simp only [hb, Bool.false_eq_true, if_neg, if_false] at h ⊢
        have : SPACE_DELIM ∉ escRun false rest := fun hm => h (List.mem_cons_of_mem c hm)
        rw [ih false this]
    | true =>
      rw [escRun_true_cons] at h ⊢
      by_cases hc : c = '}'
      · simp only [hc, if_pos] at h ⊢
        have : SPACE_DELIM ∉ escRun false rest := fun hm => h (List.mem_cons_of_mem _ hm)
        rw [ih false this]
      · simp only [if_neg hc] at h ⊢
        by_cases hsp : c = ' '
        · exfalso
          exact h (by simp [hsp])
        · simp only [if_neg hsp] at h ⊢
          have : SPACE_DELIM ∉ escRun true rest := fun hm => h (List.mem_cons_of_mem _ hm)
          rw [ih true this]

/-- If the core escaping produced no `'\x00'`, it changed nothing. -/
lemma coreEscape_of_no_nul (v : Chars) (h : SPACE_DELIM ∉ coreEscape v) :
    coreEscape v = v := by
  induction v with
  | nil => rfl
  | cons c rest ih =>
    simp only [coreEscape, List.map_cons] at h ⊢
    by_cases hc : c = ' '
    · exact absurd (by simp [hc]) h
    · simp only [if_neg hc] at h ⊢
      have : SPACE_DELIM ∉ coreEscape rest := fun hm => h (List.mem_cons_of_mem _ hm)
      exact congrArg _ (ih this)

/-- Strings whose lower-casing is one of the boolean tokens contain no space,
no `'{'` and no `'\x00'`. -/
lemma tokens_no_special (v : Chars)
    (h : pyLower v ∈ boolTrueTokens ++ boolFalseTokens) :
    ' ' ∉ v ∧ '{' ∉ v ∧ SPACE_DELIM ∉ v := by
  have key : ∀ c, c ∈ v → lowerChar c ∈ pyLower v :=
    fun c hc => List.mem_map_of_mem _ hc
  simp only [boolTrueTokens, boolFalseTokens, List.cons_append, List.nil_append,
    List.mem_cons, List.not_mem_nil, or_false] at h
  refine ⟨fun hc => ?_, fun hc => ?_, fun hc => ?_⟩ <;>
    have hm := key _ hc <;>
    rcases h with h | h | h | h | h | h | h | h <;>
    rw [h] at hm <;> revert hm <;> decide

/-- Either the session escaping is the identity on `v`, or neither `v` nor its
escaped form lower-cases to a boolean token. -/
lemma sessionEscape_eq_or_no_token (v : Chars) :
    sessionEscape v = v ∨
      (pyLower (sessionEscape v) ∉ boolTrueTokens ++ boolFalseTokens ∧
       pyLower v ∉ boolTrueTokens ++ boolFalseTokens) := by
  by_cases hnul : SPACE_DELIM ∈ sessionEscape v
  · right
    constructor
    · intro hmem
      exact (tokens_no_special _ hmem).2.2 hnul
    · intro hmem
      have hesc : sessionEscape v = v :=
        escRun_of_no_lbrace v (tokens_no_special _ hmem).2.1
      rw [hesc] at hnul
      exact (tokens_no_special _ hmem).2.2 hnul
  · exact Or.inl (escRun_of_no_nul v false hnul)

/-- Either the core escaping is the identity on `v`, or neither `v` nor its
escaped form lower-cases to a boolean token. -/
lemma coreEscape_eq_or_no_token (v : Chars) :
    coreEscape v = v ∨
      (pyLower (coreEscape v) ∉ boolTrueTokens ++ boolFalseTokens ∧
       pyLower v ∉ boolTrueTokens ++ boolFalseTokens) := by
  by_cases hnul : SPACE_DELIM ∈ coreEscape v
  · right
    constructor
    · intro hmem
      exact (tokens_no_special _ hmem).2.2 hnul
    · intro hmem
      have hesc : coreEscape v = v :=
        coreEscape_of_no_space v (tokens_no_special _ hmem).1
      rw [hesc] at hnul
      exact (tokens_no_special _ hmem).2.2 hnul
  · exact Or.inl (coreEscape_of_no_nul v hnul)

lemma mem_TT_append (v : Chars) (h : v ∈ boolTrueTokens) :
    v ∈ boolTrueTokens ++ boolFalseTokens := List.mem_append_left _ h

lemma mem_FT_append (v : Chars) (h : v ∈ boolFalseTokens) :
    v ∈ boolTrueTokens ++ boolFalseTokens := List.mem_append_right _ h

lemma TT_not_FT (v : Chars) (h : v ∈ boolTrueTokens) : v ∉ boolFalseTokens := by
  simp only [boolTrueTokens, List.mem_cons, List.not_mem_nil, or_false] at h
  rcases h with h | h | h | h <;> rw [h] <;> decide

lemma FT_not_TT (v : Chars) (h : v ∈ boolFalseTokens) : v ∉ boolTrueTokens := by
  simp only [boolFalseTokens, List.mem_cons, List.not_mem_nil, or_false] at h
  rcases h with h | h | h | h <;> rw [h] <;> decide

/-- Boolean coercion on a true token. -/
lemma sessionStore_true (v : Chars) (h : pyLower v ∈ boolTrueTokens) :
    sessionStoreValue v = .bool true := by
  have hspec := tokens_no_special v (mem_TT_append _ h)
  have hesc : sessionEscape v = v := escRun_of_no_lbrace v hspec.2.1
  simp [sessionStoreValue, hesc, coerceBool, h]

lemma coreStore_true (v : Chars) (h : pyLower v ∈ boolTrueTokens) :
    coreStoreValue v = .bool true := by
  have hspec := tokens_no_special v (mem_TT_append _ h)
  have hesc : coreEscape v = v := coreEscape_of_no_space v hspec.1
  simp [coreStoreValue, hesc, coerceBool, h]

lemma sessionStore_false (v : Chars) (h : pyLower v ∈ boolFalseTokens) :
    sessionStoreValue v = .bool false := by
  have hspec := tokens_no_special v (mem_FT_append _ h)
  have hesc : sessionEscape v = v := escRun_of_no_lbrace v hspec.2.1
  simp [sessionStoreValue, hesc, coerceBool, h, FT_not_TT _ h]

lemma coreStore_false (v : Chars) (h : pyLower v ∈ boolFalseTokens) :
    coreStoreValue v = .bool false := by
  have hspec := tokens_no_special v (mem_FT_append _ h)
  have hesc : coreEscape v = v := coreEscape_of_no_space v hspec.1
  simp [coreStoreValue, hesc, coerceBool, h, FT_not_TT _ h]

lemma sessionStore_str (v : Chars) (h1 : pyLower v ∉ boolTrueTokens)
    (h2 : pyLower v ∉ boolFalseTokens) :
    sessionStoreValue v = .str (sessionEscape v) := by
  rcases sessionEscape_eq_or_no_token v with hesc | ⟨hno, _⟩
  · rw [sessionStoreValue, hesc, coerceBool, if_neg h1, if_neg h2, ← hesc]
  · rw [List.mem_append, not_or] at hno
    rw [sessionStoreValue, coerceBool, if_neg hno.1, if_neg hno.2]

lemma coreStore_str (v : Chars) (h1 : pyLower v ∉ boolTrueTokens)
    (h2 : pyLower v ∉ boolFalseTokens) :
    coreStoreValue v = .str (coreEscape v) := by
  rcases coreEscape_eq_or_no_token v with hesc | ⟨hno, _⟩
  · rw [coreStoreValue, hesc, coerceBool, if_neg h1, if_neg h2, ← hesc]
  · rw [List.mem_append, not_or] at hno
    rw [coreStoreValue, coerceBool, if_neg hno.1, if_neg hno.2]

/-- On a matched `key = value` line, both parsers store into the mapping. -/
lemma processLine_match (store : Chars → CVal) (cfg : Cfg) (raw k w : Chars)
    (hm : matchKVLine (pyStrip raw) = some (k, w))
    (hh : (pyStrip raw).head? ≠ some '#') :
    processLine store cfg raw = cfgSet cfg k (store w) := by
  have hne : pyStrip raw ≠ [] := by
    intro h0
    rw [h0] at hm
    have : matchKVLine ([] : Chars) = none := by decide
    rw [this] at hm
    exact Option.noConfusion hm
  have hnl : pyStrip raw ≠ ['\n'] := by
    intro h0
    rw [h0] at hm
    have : matchKVLine (['\n'] : Chars) = none := by decide
    rw [this] at hm
    exact Option.noConfusion hm
  rw [processLine]
  simp only [if_neg (not_or.mpr ⟨hh, hne⟩), if_neg hnl, hm]

/-- Inside a matched brace group, spaces are escaped up to the first `'}'`. -/
lemma escRun_true_append (inner post : Chars) (h : '}' ∉ inner) :
    escRun true (inner ++ '}' :: post) =
      inner.map (fun c => if c = ' ' then SPACE_DELIM else c) ++
        '}' :: escRun false post := by
  induction inner with
  | nil => simp [escRun_true_cons]
  | cons c rest ih =>
    have hc : ¬ c = '}' := fun hc => h (hc ▸ List.mem_cons_self c rest)
    have hr : '}' ∉ rest := fun hm => h (List.mem_cons_of_mem c hm)
    simp only [List.cons_append, escRun_true_cons, if_neg hc, List.map_cons,
      ih hr]

/-- A first `'{'` with no closing `'}'` after it: nothing is escaped. -/
lemma escRun_first_lbrace_unclosed (pre rest : Chars)
    (hpre : '{' ∉ pre) (hrest : '}' ∉ rest) :
    escRun false (pre ++ '{' :: rest) = pre ++ '{' :: rest := by
  induction pre with
  | nil =>
    have hcontains : rest.contains '}' = false := by
      rcases hcon : rest.contains '}' with _ | _
      · rfl
      · exact absurd (List.elem_iff.mp hcon) hrest
    rw [List.nil_append, escRun_false_cons, hcontains]
    simp [escRun_of_no_rbrace rest hrest]
  | cons c pre' ih =>
    have hc : ¬ c = '{' := fun hc => hpre (hc ▸ List.mem_cons_self c pre')
    have hp : '{' ∉ pre' := fun hm => hpre (List.mem_cons_of_mem c hm)
    rw [List.cons_append, escRun_false_cons]
    simp [hc, ih hp]

/-- The leftmost brace group `'{' inner '}'` has its spaces escaped; the
prefix before it is untouched and scanning resumes after the group. -/
lemma escRun_first_group (pre inner post : Chars)
    (hpre : '{' ∉ pre) (hinner : '}' ∉ inner) :
    escRun false (pre ++ '{' :: inner ++ '}' :: post) =
      pre ++ '{' :: inner.map (fun c => if c = ' ' then SPACE_DELIM else c) ++
        '}' :: escRun false post := by
  induction pre with
  | nil =>
    have hcontains : (inner ++ '}' :: post).contains '}' = true :=
      List.elem_iff.mpr (by simp)
    rw [List.nil_append, List.cons_append, escRun_false_cons, hcontains]
    simp [escRun_true_append inner post hinner]
  | cons c pre' ih =>
    have hc : ¬ c = '{' := fun hc => hpre (hc ▸ List.mem_cons_self c pre')
    have hp : '{' ∉ pre' := fun hm => hpre (List.mem_cons_of_mem c hm)
    simp only [List.cons_append, List.append_assoc]
    rw [escRun_false_cons]
    simp only [List.cons_append, List.append_assoc] at ih
    simp [hc, ih hp]

/-- Core's escaping absorbs session's: escaping the remaining spaces of a
session-escaped value gives exactly the all-spaces escaping. -/
lemma coreEscape_escRun (v : Chars) :
    ∀ m, coreEscape (escRun m v) = coreEscape v := by
  induction v with
  | nil => intro m; cases m <;> rfl
  | cons c rest ih =>
    intro m
    cases m with
    | false =>
      rw [escRun_false_cons]
      by_cases hb : (decide (c = '{') && rest.contains '}') = true
      · rw [if_pos hb]
        simp only [coreEscape, List.map_cons]
        rw [show List.map (fun c => if c = ' ' then SPACE_DELIM else c)
              (escRun true rest) = coreEscape (escRun true rest) from rfl,
          ih true]
        rfl
      · rw [if_neg hb]
        simp only [coreEscape, List.map_cons]
        rw [show List.map (fun c => if c = ' ' then SPACE_DELIM else c)
              (escRun false rest) = coreEscape (escRun false rest) from rfl,
          ih false]
        rfl
    | true =>
      rw [escRun_true_cons]
      by_cases hc : c = '}'
      · rw [if_pos hc]
        simp only [coreEscape, List.map_cons]
        rw [show List.map (fun c => if c = ' ' then SPACE_DELIM else c)
              (escRun false rest) = coreEscape (escRun false rest) from rfl,
          ih false]
        rfl
      · rw [if_neg hc]
        simp only [coreEscape, List.map_cons]
        rw [show List.map (fun c => if c = ' ' then SPACE_DELIM else c)
              (escRun true rest) = coreEscape (escRun true rest) from rfl,
          ih true]
        by_cases hsp : c = ' '
        · simp [hsp, SPACE_DELIM, coreEscape]
        · simp [hsp, coreEscape]

/-- Per-value relation between the two parsers' stored values. -/
lemma coreStore_eq_cvalCoreOf (v : Chars) :
    coreStoreValue v = cvalCoreOf (sessionStoreValue v) := by
  by_cases h1 : pyLower v ∈ boolTrueTokens
  · rw [coreStore_true v h1, sessionStore_true v h1]; rfl
  · by_cases h2 : pyLower v ∈ boolFalseTokens
    · rw [coreStore_false v h2, sessionStore_false v h2]; rfl
    · rw [coreStore_str v h1 h2, sessionStore_str v h1 h2]
      simp only [cvalCoreOf, sessionEscape, CVal.str.injEq]
      exact (coreEscape_escRun v false).symm

/-- One processed line preserves the space-escaping relation. -/
lemma processLine_rel (cfgS cfgC : Cfg)
    (h : ∀ k, cfgC k = (cfgS k).map cvalCoreOf) (raw : Chars) :
    ∀ k, processLine coreStoreValue cfgC raw k =
      (processLine sessionStoreValue cfgS raw k).map cvalCoreOf := by
  intro k
  simp only [processLine]
  by_cases hskip : (pyStrip raw).head? = some '#' ∨ pyStrip raw = []
  · simp only [if_pos hskip]; exact h k
  · simp only [if_neg hskip]
    by_cases hnl : pyStrip raw = ['\n']
    · simp only [if_pos hnl]; exact h k
    · simp only [if_neg hnl]
      cases hm : matchKVLine (pyStrip raw) with
      | none => exact h k
      | some kv =>
        obtain ⟨k', w⟩ := kv
        simp only [cfgSet]
        by_cases hk : k = k'
        · simp only [if_pos hk]
          rw [coreStore_eq_cvalCoreOf]
          rfl
        · simp only [if_neg hk]; exact h k

/-! ## Claim theorems -/

/-- Claim C1: for every config line `key = value`, both `get_config`
implementations coerce the value to a boolean before storing it: a value
lower-casing to `'t'`, `'true'`, `'y'` or `'1'` is stored as `True`, one
lower-casing to `'f'`, `'false'`, `'n'` or `'0'` as `False`, and any other
value is stored as the escaped string itself; and on a matched line the
coerced value is what lands in the config mapping. -/
theorem claim1_bool_coercion (v : Chars) :
    (pyLower v ∈ boolTrueTokens →
      sessionStoreValue v = CVal.bool true ∧ coreStoreValue v = CVal.bool true) ∧
    (pyLower v ∈ boolFalseTokens →
      sessionStoreValue v = CVal.bool false ∧ coreStoreValue v = CVal.bool false) ∧
    (pyLower v ∉ boolTrueTokens → pyLower v ∉ boolFalseTokens →
      sessionStoreValue v = CVal.str (sessionEscape v) ∧
      coreStoreValue v = CVal.str (coreEscape v)) ∧
    (∀ (cfg : Cfg) (raw k w : Chars),
      matchKVLine (pyStrip raw) = some (k, w) →
      (pyStrip raw).head? ≠ some '#' →
      processLine sessionStoreValue cfg raw = cfgSet cfg k (sessionStoreValue w) ∧
      processLine coreStoreValue cfg raw = cfgSet cfg k (coreStoreValue w)) := by
  refine ⟨fun h => ⟨sessionStore_true v h, coreStore_true v h⟩,
    fun h => ⟨sessionStore_false v h, coreStore_false v h⟩,
    fun h1 h2 => ⟨sessionStore_str v h1 h2, coreStore_str v h1 h2⟩,
    fun cfg raw k w hm hh =>
      ⟨processLine_match _ cfg raw k w hm hh,
       processLine_match _ cfg raw k w hm hh⟩⟩

/-- Witness for C1 at concrete values. -/
theorem claim1_bool_coercion_witness :
    sessionStoreValue ("True" : String).toList = CVal.bool true ∧
    coreStoreValue ("0" : String).toList = CVal.bool false ∧
    sessionStoreValue ("hello" : String).toList =
      CVal.str (sessionEscape ("hello" : String).toList) :=
  ⟨((claim1_bool_coercion _).1 (by decide)).1,
   ((claim1_bool_coercion _).2.1 (by decide)).2,
   ((claim1_bool_coercion _).2.2.1 (by decide) (by decide)).1⟩

/-- Claim C2, as stated, is false of `core.get_config` (one of its cited
sources): the value `"a b"` contains no brace-delimited substring at all,
yet core's escaping stores `"a\x00b"`, changing a character outside any
braces. -/
theorem claim2_counterexample :
    coreStoreValue ['a', ' ', 'b'] = CVal.str ['a', SPACE_DELIM, 'b'] ∧
    '{' ∉ (['a', ' ', 'b'] : Chars) ∧
    CVal.str ['a', SPACE_DELIM, 'b'] ≠ CVal.str ['a', ' ', 'b'] := by
  decide

/-- Claim C2 amended: in `session.get_config` the escaping replaces spaces
with `'\x00'` only inside brace-delimited substrings and leaves every
character outside them unchanged (`core.get_config` instead escapes every
space of the value): a value with no `'{'`, or whose first `'{'` never
closes, is unchanged, and the leftmost group `'{' inner '}'` of a value has
exactly its inner spaces escaped, the prefix before it kept as is, and the
scan continuing after the group. -/
theorem claim2_escape_only_inside_braces (v : Chars) :
    ('{' ∉ v → sessionEscape v = v) ∧
    (∀ pre rest, v = pre ++ '{' :: rest → '{' ∉ pre → '}' ∉ rest →
      sessionEscape v = v) ∧
    (∀ pre inner post, v = pre ++ '{' :: inner ++ '}' :: post →
      '{' ∉ pre → '}' ∉ inner →
      sessionEscape v =
        pre ++ '{' :: inner.map (fun c => if c = ' ' then SPACE_DELIM else c) ++
          '}' :: sessionEscape post) := by
  refine ⟨fun h => escRun_of_no_lbrace v h, ?_, ?_⟩
  · intro pre rest hv hpre hrest
    rw [sessionEscape, hv]
    exact escRun_first_lbrace_unclosed pre rest hpre hrest
  · intro pre inner post hv hpre hinner
    rw [sessionEscape, hv]
    exact escRun_first_group pre inner post hpre hinner

/-- Witness for C2 (amended) at a concrete value with one brace group. -/
theorem claim2_escape_witness :
    sessionEscape ['a', ' ', '{', 'b', ' ', 'c', '}'] =
      ['a', ' ', '{', 'b', SPACE_DELIM, 'c', '}'] := by
  have h := (claim2_escape_only_inside_braces
      ['a', ' ', '{', 'b', ' ', 'c', '}']).2.2
    ['a', ' '] ['b', ' ', 'c'] [] rfl (by decide) (by decide)
  simpa using h

/-- Claim C3, as stated, is false: on the single line `k = a b` the two
parsers store different values for `k` (session keeps the space, core
escapes it). -/
theorem claim3_counterexample :
    core_get_config [("k = a b" : String).toList] emptyCfg ("k" : String).toList ≠
      session_get_config [("k = a b" : String).toList] emptyCfg
        ("k" : String).toList := by
  decide

/-- Claim C3 amended: the two parsers agree on which keys are stored and on
all boolean values, and differ on string values only by core additionally
escaping the spaces session left outside braces: from initial configs
related by `cvalCoreOf` (core's value = session's with every remaining space
replaced by `'\x00'`), processing any sequence of lines leaves configs
related the same way at every key. -/
theorem claim3_parsers_related (lines : List Chars) :
    ∀ (cfgS cfgC : Cfg), (∀ k, cfgC k = (cfgS k).map cvalCoreOf) →
      ∀ k, core_get_config lines cfgC k =
        (session_get_config lines cfgS k).map cvalCoreOf := by
  induction lines with
  | nil => intro cfgS cfgC h k; exact h k
  | cons l rest ih =>
    intro cfgS cfgC h k
    simp only [core_get_config, session_get_config, List.foldl_cons]
    exact ih _ _ (processLine_rel cfgS cfgC h l) k

/-- Witness for C3 (amended): from empty configs, after `k = a b` the core
value of `k` is the session value with its space escaped. -/
theorem claim3_parsers_related_witness :
    core_get_config [("k = a b" : String).toList] emptyCfg ("k" : String).toList =
      (session_get_config [("k = a b" : String).toList] emptyCfg
        ("k" : String).toList).map cvalCoreOf :=
  claim3_parsers_related _ emptyCfg emptyCfg (fun _ => rfl) _

/-! ## Dot-reference substitution lemmas -/

/-- Enough fuel makes `subDotsGo` fuel-independent. -/
lemma subDotsGo_fuel_eq (cfg : Cfg) :
    ∀ (f1 f2 : Nat) (l : Chars), l.length ≤ f1 → l.length ≤ f2 →
      subDotsGo cfg f1 l = subDotsGo cfg f2 l := by
  intro f1
  induction f1 with
  | zero =>
    intro f2 l h1 _
    have hl : l = [] := by
      cases l with
      | nil => rfl
      | cons c r => simp at h1
    subst hl
    cases f2 <;> rfl
  | succ f1 ih =>
    intro f2 l h1 h2
    cases l with
    | nil => cases f2 <;> rfl
    | cons c rest =>
      cases f2 with
      | zero => simp at h2
      | succ f2 =>
        simp only [List.length_cons, Nat.succ_le_succ_iff] at h1 h2
        simp only [subDotsGo]
        by_cases hdot : c = '.'
        · simp only [if_pos hdot]
          by_cases hw : (rest.takeWhile isWordChar).isEmpty
          · simp only [if_pos hw]
            rw [ih f2 rest h1 h2]
          · simp only [if_neg hw]
            have hlen : (rest.drop (rest.takeWhile isWordChar).length).length ≤
                rest.length := by
              rw [List.length_drop]
              omega
            rw [ih f2 _ (le_trans hlen h1) (le_trans hlen h2)]
        · simp only [if_neg hdot]
          rw [ih f2 rest h1 h2]

/-- A maximal word run at the front of `w ++ post` is `w`. -/
lemma takeWhile_word_append (w post : Chars)
    (hw : ∀ c ∈ w, isWordChar c = true)
    (hpost : ∀ c, post.head? = some c → isWordChar c = false) :
    (w ++ post).takeWhile isWordChar = w := by
  induction w with
  | nil =>
    cases post with
    | nil => rfl
    | cons c r =>
      have := hpost c rfl
      simp [List.takeWhile_cons, this]
  | cons c r ih =>
    have h1 := hw c (List.mem_cons_self c r)
    simp [List.takeWhile_cons, h1,
      ih (fun x hx => hw x (List.mem_cons_of_mem c hx))]

/-! ## Dispatcher lemmas -/

/-- Dropping the matched prefix length is dropping the matched prefix. -/
lemma drop_takeWhile_length (p : Char → Bool) (l : Chars) :
    l.drop (l.takeWhile p).length = l.dropWhile p := by
  induction l with
  | nil => rfl
  | cons c r ih =>
    by_cases h : p c
    · simp [List.takeWhile_cons, List.dropWhile_cons, h, ih]
    · simp [List.takeWhile_cons, List.dropWhile_cons, h]

/-- The head surviving `dropWhile` falsifies the predicate. -/
lemma dropWhile_head_false (p : Char → Bool) (l : Chars) (c : Char)
    (rest : Chars) (h : l.dropWhile p = c :: rest) : p c = false := by
  induction l with
  | nil => simp at h
  | cons a r ih =>
    rw [List.dropWhile_cons] at h
    by_cases ha : p a
    · exact ih (by simpa [ha] using h)
    · rw [if_neg (by simp [ha])] at h
      obtain ⟨rfl, -⟩ := List.cons.inj h
      simpa using ha

/-- `dropWhile` keeps a list whose head falsifies the predicate. -/
lemma dropWhile_eq_self_of_all (p : Char → Bool) (l : Chars)
    (h : ∀ c ∈ l, p c = false) : l.dropWhile p = l := by
  cases l with
  | nil => rfl
  | cons a r =>
    rw [List.dropWhile_cons, if_neg]
    simp [h a (List.mem_cons_self a r)]

/-- `strip` of a whitespace-free string is the string itself. -/
lemma pyStrip_of_no_space (l : Chars) (h : ∀ c ∈ l, isPySpace c = false) :
    pyStrip l = l := by
  rw [pyStrip, dropWhile_eq_self_of_all _ _ h,
    dropWhile_eq_self_of_all _ _ (fun c hc => h c (List.mem_reverse.mp hc)),
    List.reverse_reverse]

/-- The command word contains no whitespace. -/
lemma splitCmd_no_space (line : Chars) :
    ∀ c ∈ (splitCmd line).1, isPySpace c = false := by
  intro c hc
  simp only [splitCmd] at hc
  split at hc
  · rename_i heq
    rw [drop_takeWhile_length] at heq
    have := (List.dropWhile_eq_nil_iff.mp heq) c hc
    simpa using this
  · have := List.mem_takeWhile_imp hc
    simpa using this

/-- No argument string iff the line has no whitespace. -/
lemma splitCmd_none_iff (line : Chars) :
    (splitCmd line).2 = none ↔ ∀ c ∈ line, isPySpace c = false := by
  constructor
  · intro h c hc
    simp only [splitCmd] at h
    split at h
    · rename_i heq
      rw [drop_takeWhile_length] at heq
      simpa using (List.dropWhile_eq_nil_iff.mp heq) c hc
    · simp at h
  · intro h
    have hdw : line.dropWhile (fun c => !(isPySpace c)) = [] :=
      List.dropWhile_eq_nil_iff.mpr (fun c hc => by simp [h c hc])
    simp only [splitCmd]
    rw [drop_takeWhile_length, hdw]

/-- Without whitespace the command is the whole line. -/
lemma splitCmd_none_cmd (line : Chars) (h : (splitCmd line).2 = none) :
    (splitCmd line).1 = line := by
  simp only [splitCmd] at h ⊢
  split at h
  · rfl
  · simp at h

/-- With an argument string, the line splits at its first whitespace. -/
lemma splitCmd_some (line a : Chars) (h : (splitCmd line).2 = some a) :
    ∃ s, isPySpace s = true ∧ line = (splitCmd line).1 ++ s :: a := by
  have hline := List.takeWhile_append_dropWhile
    (p := fun c => !(isPySpace c)) (l := line)
  simp only [splitCmd] at h ⊢
  split at h
  · simp at h
  · rename_i s rest heq
    obtain rfl := Option.some.inj h
    rw [drop_takeWhile_length] at heq
    refine ⟨s, ?_, ?_⟩
    · have := dropWhile_head_false _ _ _ _ heq
      simpa using this
    · show line = List.takeWhile (fun c => !(isPySpace c)) line ++ s :: rest
      rw [← heq]
      exact hline.symm

/-- Unknown nonempty commands fall through to the usage output in both
dispatchers. -/
lemma unknown_command_usage (line : Chars)
    (h1 : (splitCmd line).1 ∉ knownCommands) (h2 : (splitCmd line).1 ≠ []) :
    lab_parse line = usageOutput (splitCmd line).1 ∧
    pylab_parse line = usageOutput (splitCmd line).1 := by
  simp only [knownCommands, List.mem_cons, List.not_mem_nil, or_false,
    not_or] at h1
  obtain ⟨hlogin, hlogout, hexit, hprint, hdebug, hdev⟩ := h1
  have hstrip : pyStrip (splitCmd line).1 = (splitCmd line).1 :=
    pyStrip_of_no_space _ (splitCmd_no_space line)
  constructor
  · simp only [lab_parse]
    rw [if_neg hlogin, if_neg hexit, if_neg hprint, if_neg hlogout,
      if_neg hdebug, if_neg hdev]
  · simp only [pylab_parse]
    rw [if_neg (by rw [hstrip]; exact h2), if_neg hlogin, if_neg hexit,
      if_neg hprint, if_neg hlogout, if_neg hdebug, if_neg hdev]

/-- Print effects leave any state unchanged under a print-fixing semantics. -/
lemma applyEffects_usage {σ : Type} (f : LabEffect → σ → σ)
    (hp : ∀ s st', f (.printOut s) st' = st') (cmd : Chars) (st : σ) :
    applyEffects f (usageOutput cmd) st = st := by
  simp [applyEffects, usageOutput, hp]

/-- Claim C4, as stated, is false: with `password` absent from the config
mapping, the token `.password` is not left unchanged but replaced by
`'*' * len('.password')`, nine asterisks, because the masking applies to
the fallback `match.group(0)` as well. -/
theorem claim4_counterexample :
    parse_dot_references emptyCfg (".password" : String).toList =
      List.replicate 9 '*' ∧
    List.replicate 9 '*' ≠ (".password" : String).toList := by
  decide

/-- Claim C4 amended: each token `.word` is replaced by the config value of
`word` (`str` of a boolean) when present, and left unchanged when absent —
except `word = "password"`, which is always masked to `'*'` repeated to
the length of the chosen replacement: the value's string form when the key
is present, and the whole token `.password` (nine characters) when
absent. -/
theorem claim4_dot_substitution (cfg : Cfg) (w : Chars) :
    (∀ post, w ≠ [] → (∀ c ∈ w, isWordChar c = true) →
      (∀ c, post.head? = some c → isWordChar c = false) →
      parse_dot_references cfg ('.' :: (w ++ post)) =
        dotRefValue cfg w ++ parse_dot_references cfg post) ∧
    (∀ c rest, ¬ c = '.' →
      parse_dot_references cfg (c :: rest) =
        c :: parse_dot_references cfg rest) ∧
    (∀ b, cfg w = some (.bool b) → w ≠ passwordKey →
      dotRefValue cfg w = pyStrBool b) ∧
    (∀ s, cfg w = some (.str s) → w ≠ passwordKey → dotRefValue cfg w = s) ∧
    (cfg w = none → w ≠ passwordKey → dotRefValue cfg w = '.' :: w) ∧
    (w = passwordKey → dotRefValue cfg w =
      List.replicate (match cfg w with
        | some (.bool b) => (pyStrBool b).length
        | some (.str s) => s.length
        | none => w.length + 1) '*') := by
  refine ⟨?_, ?_, ?_, ?_, ?_, ?_⟩
  · intro post hne hw hpost
    have htw : ((w ++ post).takeWhile isWordChar) = w :=
      takeWhile_word_append w post hw hpost
    have hwe : w.isEmpty = false := by
      cases w with
      | nil => exact absurd rfl hne
      | cons _ _ => rfl
    rw [parse_dot_references, parse_dot_references]
    simp only [List.length_cons, subDotsGo, if_pos rfl, htw, hwe,
      Bool.false_eq_true, if_false, List.drop_left]
    rw [subDotsGo_fuel_eq cfg (w ++ post).length post.length post
      (by simp) (le_refl _)]
    simp
  · intro c rest hc
    rw [parse_dot_references, parse_dot_references]
    simp only [List.length_cons, subDotsGo, if_neg hc]
  · intro b hb hne
    simp [dotRefValue, hb, hne]
  · intro s hs hne
    simp [dotRefValue, hs, hne]
  · intro hn hne
    simp [dotRefValue, hn, hne]
  · intro h
    subst h
    simp only [dotRefValue, if_pos rfl]
    cases hc : cfg passwordKey with
    | none => simp [hc]
    | some v =>
      cases v with
      | bool b => simp [hc]
      | str s => simp [hc]

/-- Witness for C4 (amended) at a concrete config and line. -/
theorem claim4_dot_substitution_witness :
    parse_dot_references (cfgSet emptyCfg ("url" : String).toList
        (CVal.str ("X" : String).toList))
      ('.' :: (("url" : String).toList ++ (" go" : String).toList)) =
      dotRefValue (cfgSet emptyCfg ("url" : String).toList
        (CVal.str ("X" : String).toList)) ("url" : String).toList ++
      parse_dot_references (cfgSet emptyCfg ("url" : String).toList
        (CVal.str ("X" : String).toList)) (" go" : String).toList ∧
    dotRefValue (cfgSet emptyCfg ("url" : String).toList
        (CVal.str ("X" : String).toList)) ("url" : String).toList =
      ("X" : String).toList := by
  constructor
  · exact (claim4_dot_substitution _ _).1 _ (by decide) (by decide)
      (by intro c hc; simp at hc; subst hc; decide)
  · exact (claim4_dot_substitution _ _).2.2.2.1 _ (by decide) (by decide)

/-- Claim C5: the dispatcher splits the line at its first whitespace into a
command word (whitespace-free; the whole line, with the argument string
absent, exactly when the line has no whitespace), and any command word
outside `{login, logout, exit, print, debug, dev}` that is nonempty makes
both dispatchers print the command word followed by `'?'` and the usage
list, and change no state under any semantics in which printing changes no
state. -/
theorem claim5_dispatch (line : Chars) :
    (∀ c ∈ (splitCmd line).1, isPySpace c = false) ∧
    ((splitCmd line).2 = none ↔ ∀ c ∈ line, isPySpace c = false) ∧
    ((splitCmd line).2 = none → (splitCmd line).1 = line) ∧
    (∀ a, (splitCmd line).2 = some a →
      ∃ s, isPySpace s = true ∧ line = (splitCmd line).1 ++ s :: a) ∧
    ((splitCmd line).1 ∉ knownCommands → (splitCmd line).1 ≠ [] →
      lab_parse line = usageOutput (splitCmd line).1 ∧
      pylab_parse line = usageOutput (splitCmd line).1 ∧
      usageOutput (splitCmd line).1 =
        [LabEffect.printOut ((splitCmd line).1 ++ ("?" : String).toList),
         LabEffect.printOut ("   login" : String).toList,
         LabEffect.printOut ("   exit" : String).toList,
         LabEffect.printOut ("   print [text]" : String).toList] ∧
      ∀ (σ : Type) (f : LabEffect → σ → σ) (st : σ),
        (∀ s st', f (.printOut s) st' = st') →
        applyEffects f (lab_parse line) st = st ∧
        applyEffects f (pylab_parse line) st = st) := by
  refine ⟨splitCmd_no_space line, splitCmd_none_iff line, splitCmd_none_cmd line,
    fun a h => splitCmd_some line a h, fun h1 h2 => ?_⟩
  obtain ⟨hl, hp⟩ := unknown_command_usage line h1 h2
  refine ⟨hl, hp, rfl, fun σ f st hpr => ?_⟩
  rw [hl, hp]
  exact ⟨applyEffects_usage f hpr _ st, applyEffects_usage f hpr _ st⟩

/-- Witness for C5 at a concrete unknown command. -/
theorem claim5_dispatch_witness :
    lab_parse ("frobnicate now" : String).toList =
      usageOutput ("frobnicate" : String).toList ∧
    applyEffects (fun (_ : LabEffect) (n : Nat) => n)
      (lab_parse ("frobnicate now" : String).toList) 5 = 5 := by
  have h := (claim5_dispatch ("frobnicate now" : String).toList).2.2.2.2
    (by decide) (by decide)
  have hcmd : (splitCmd ("frobnicate now" : String).toList).1 =
      ("frobnicate" : String).toList := by decide
  exact ⟨by rw [h.1, hcmd],
    (h.2.2.2 Nat (fun _ n => n) 5 (fun _ _ => rfl)).1⟩

/-- Claim C6: the intended conversion works on integer intervals with no
suffix or a lowercase suffix (`'' `/`'s'` multiply by 1, `'m'` by 60, `'h'`
by 3600), but the suffix-parsing regex `^(\d*)([smhSMH]?)$` cannot match a
fractional number such as `2.5` — accepted earlier by `float_regex`, whose
comment says "match an int string or a float string" — so the value stays
an unconverted string handed to `asyncio.sleep`, and an uppercase suffix
such as `5M` — accepted by the regex — raises `KeyError` because
`TIME_SUFFIX_DICT` has no uppercase keys. -/
theorem claim6_time_suffix_eval :
    convert_time ("5" : String).toList = .seconds 5 ∧
    convert_time ("5s" : String).toList = .seconds (5 * 1) ∧
    convert_time ("5m" : String).toList = .seconds (5 * 60) ∧
    convert_time ("5h" : String).toList = .seconds (5 * 3600) ∧
    convert_time ("90m" : String).toList = .seconds 5400 ∧
    convert_time ("2.5" : String).toList = .unconverted ∧
    convert_time ("5M" : String).toList = .pyError := by
  decide

/-! ## Dict and registry lemmas -/

lemma alookup_nil {K V : Type} [DecidableEq K] (k : K) :
    alookup ([] : List (K × V)) k = none := rfl

lemma alookup_cons {K V : Type} [DecidableEq K] (k' : K) (v : V)
    (rest : List (K × V)) (k : K) :
    alookup ((k', v) :: rest) k = if k = k' then some v else alookup rest k :=
  rfl

lemma alookup_map_set {K V : Type} [DecidableEq K] (l : List (K × V))
    (k : K) (v : V) :
    alookup (l.map (fun p => if p.1 = k then (k, v) else p)) k =
      (alookup l k).map (fun _ => v) := by
  induction l with
  | nil => rfl
  | cons p rest ih =>
    obtain ⟨k1, v1⟩ := p
    by_cases h : k1 = k
    · subst h
      simp [alookup_cons, ih]
    · have h' : ¬ k = k1 := fun hh => h hh.symm
      simp [alookup_cons, h, h', ih]

lemma alookup_map_set_other {K V : Type} [DecidableEq K] (l : List (K × V))
    (k k' : K) (v : V) (h : ¬ k' = k) :
    alookup (l.map (fun p => if p.1 = k then (k, v) else p)) k' =
      alookup l k' := by
  induction l with
  | nil => rfl
  | cons p rest ih =>
    obtain ⟨k1, v1⟩ := p
    by_cases h1 : k1 = k
    · subst h1
      simp [alookup_cons, h, ih]
    · by_cases hk : k' = k1 <;> simp [alookup_cons, h1, hk, ih]

lemma alookup_append_one {K V : Type} [DecidableEq K] (l : List (K × V))
    (k : K) (v : V) (h : alookup l k = none) :
    alookup (l ++ [(k, v)]) k = some v := by
  induction l with
  | nil => simp [alookup_cons]
  | cons p rest ih =>
    obtain ⟨k1, v1⟩ := p
    rw [alookup_cons] at h
    by_cases hk : k = k1
    · rw [if_pos hk] at h
      exact Option.noConfusion h
    · rw [if_neg hk] at h
      simp [alookup_cons, hk, ih h]

lemma alookup_append_one_other {K V : Type} [DecidableEq K] (l : List (K × V))
    (k k' : K) (v : V) (h : ¬ k' = k) :
    alookup (l ++ [(k, v)]) k' = alookup l k' := by
  induction l with
  | nil => simp [alookup_cons, alookup_nil, h]
  | cons p rest ih =>
    obtain ⟨k1, v1⟩ := p
    by_cases hk : k' = k1 <;> simp [alookup_cons, hk, ih]

lemma alookup_dictSet_self {K V : Type} [DecidableEq K] (l : List (K × V))
    (k : K) (v : V) : alookup (dictSet l k v) k = some v := by
  rw [dictSet]
  cases h : alookup l k with
  | none =>
    rw [if_neg (by simp [h])]
    exact alookup_append_one l k v h
  | some v1 =>
    rw [if_pos (by simp [h]), alookup_map_set, h]
    rfl

lemma alookup_dictSet_other {K V : Type} [DecidableEq K] (l : List (K × V))
    (k k' : K) (v : V) (h : ¬ k' = k) :
    alookup (dictSet l k v) k' = alookup l k' := by
  rw [dictSet]
  by_cases hp : (alookup l k).isSome
  · rw [if_pos hp]
    exact alookup_map_set_other l k k' v h
  · rw [if_neg hp]
    exact alookup_append_one_other l k k' v h

lemma map_false_ne_some_true (o : Option Bool) :
    o.map (fun _ => false) ≠ some true := by
  cases o <;> simp

lemma alookup_stopAll (reg : Reg) (n : Nat) :
    alookup (stopAll reg) n = (alookup reg n).map (fun _ => false) := by
  induction reg with
  | nil => rfl
  | cons p rest ih =>
    obtain ⟨k1, b⟩ := p
    simp only [stopAll, List.map_cons] at ih ⊢
    by_cases h : n = k1 <;> simp [alookup_cons, h, ih]

lemma alookup_filter_self (reg : Reg) (n : Nat) :
    alookup (reg.filter (fun p => p.1 != n)) n = none := by
  induction reg with
  | nil => rfl
  | cons p rest ih =>
    obtain ⟨k1, b⟩ := p
    by_cases h : k1 = n
    · subst h
      simp [List.filter_cons, ih]
    · have h' : ¬ n = k1 := fun hh => h hh.symm
      have hb : (k1 != n) = true := by simp [h]
      simp [List.filter_cons, hb, alookup_cons, h', ih]

lemma alookup_filter_other (reg : Reg) (n m : Nat) (hm : m ≠ n) :
    alookup (reg.filter (fun p => p.1 != n)) m = alookup reg m := by
  induction reg with
  | nil => rfl
  | cons p rest ih =>
    obtain ⟨k1, b⟩ := p
    by_cases h : k1 = n
    · subst h
      have h' : ¬ m = k1 := hm
      simp [List.filter_cons, alookup_cons, h', ih]
    · have hb : (k1 != n) = true := by simp [h]
      by_cases hmk : m = k1 <;>
        simp [List.filter_cons, hb, alookup_cons, hmk, ih]

/-- The safety invariant of `run_beep`: while this id's entry is not `True`,
no reachable run emits another beep print. -/
lemma beep_no_print (id : Nat) :
    ∀ (s : BeepState) (ls : List BeepLbl) (s2 : BeepState),
      beep_steps id s ls s2 → alookup s.reg id ≠ some true →
      BeepLbl.beepPrint ∉ ls := by
  intro s ls s2 h
  induction h with
  | nil => intro _; simp
  | cons hstep hrest ih =>
    intro hinv
    cases hstep with
    | check_true h1 => exact absurd h1 hinv
    | check_stop h1 =>
      intro hmem
      rcases List.mem_cons.mp hmem with h' | h'
      · exact BeepLbl.noConfusion h'
      · exact ih hinv h'
    | wake =>
      intro hmem
      rcases List.mem_cons.mp hmem with h' | h'
      · exact BeepLbl.noConfusion h'
      · exact ih hinv h'
    | env_stop_one n =>
      intro hmem
      rcases List.mem_cons.mp hmem with h' | h'
      · exact BeepLbl.noConfusion h'
      · refine ih ?_ h'
        by_cases hn : id = n
        · subst hn
          rw [show stopOne id _ = dictSet _ id false from rfl,
            alookup_dictSet_self]
          simp
        · rw [show stopOne n _ = dictSet _ n false from rfl,
            alookup_dictSet_other _ n id false hn]
          exact hinv
    | env_stop_all =>
      intro hmem
      rcases List.mem_cons.mp hmem with h' | h'
      · exact BeepLbl.noConfusion h'
      · refine ih ?_ h'
        rw [alookup_stopAll]
        exact map_false_ne_some_true _
    | env_other reg' h1 =>
      intro hmem
      rcases List.mem_cons.mp hmem with h' | h'
      · exact BeepLbl.noConfusion h'
      · exact ih (h1 hinv) h'

/-- Claim C7: `stop n` sets exactly id `n`'s registry entry to `False`,
`stop` with no id sets every entry to `False`, and once an id's entry is
`False` its `run_beep` loop never emits another beep print in any
cooperative interleaving. -/
theorem claim7_beep_stop (id : Nat) :
    (∀ args (reg : Reg) ds, ds ≠ [] →
      pyStrip args = ("stop " : String).toList ++ ds →
      ds.all isAsciiDigit = true →
      beep_stop_command args reg = some (stopOne (digitsToNat ds) reg)) ∧
    (∀ args (reg : Reg), pyStrip args = ("stop" : String).toList →
      beep_stop_command args reg = some (stopAll reg)) ∧
    (∀ (reg : Reg) n, alookup (stopOne n reg) n = some false) ∧
    (∀ (reg : Reg) n m, ¬ m = n → alookup (stopOne n reg) m = alookup reg m) ∧
    (∀ (reg : Reg) n,
      alookup (stopAll reg) n = (alookup reg n).map (fun _ => false)) ∧
    (∀ s ls s2, beep_steps id s ls s2 → alookup s.reg id = some false →
      BeepLbl.beepPrint ∉ ls) := by
  refine ⟨?_, ?_, ?_, ?_, ?_, ?_⟩
  · intro args reg ds _ hstrip hdig
    simp only [beep_stop_command, hstrip]
    rw [List.take_left' (by rfl), List.drop_left' (by rfl), if_pos ⟨rfl, hdig⟩]
  · intro args reg hstrip
    simp only [beep_stop_command, hstrip]
    rw [if_neg (by decide)]
    simp
  · intro reg n
    exact alookup_dictSet_self reg n false
  · intro reg n m hm
    exact alookup_dictSet_other reg n m false hm
  · intro reg n
    exact alookup_stopAll reg n
  · intro s ls s2 hsteps hfalse
    exact beep_no_print id s ls s2 hsteps (by rw [hfalse]; simp)

/-- Witness for C7 at a concrete registry and run. -/
theorem claim7_beep_stop_witness :
    beep_stop_command ("stop 2" : String).toList [(2, true)] =
      some (stopOne (digitsToNat ['2']) [(2, true)]) ∧
    alookup (stopOne 2 [(2, true), (5, true)]) 5 = some true ∧
    BeepLbl.beepPrint ∉ ([BeepLbl.silent] : List BeepLbl) := by
  refine ⟨?_, ?_, ?_⟩
  · exact (claim7_beep_stop 0).1 _ _ ['2'] (by decide) (by decide) (by decide)
  · exact ((claim7_beep_stop 0).2.2.2.1 [(2, true), (5, true)] 2 5
      (by decide)).trans (by decide)
  · exact (claim7_beep_stop 2).2.2.2.2.2 ⟨[(2, false)], .check⟩ [.silent]
      ⟨[(2, false)], .done⟩
      (beep_steps.cons (beep_step.check_stop (by decide)) (beep_steps.nil _))
      (by decide)

/-- Claim C8: with a connected client, subscribing to an already-registered
channel name returns the registered subscription and leaves the registry
unchanged; hence after a fresh (truthy) subscription registers, a second
subscribe to the same name returns the same subscription and the same
registry as the first. -/
theorem claim8_subscribe_idempotent {α : Type} (truthy : α → Bool)
    (newSub : α) (force : Bool) (subs : List (Chars × α)) (name : Chars) :
    (∀ s, alookup subs name = some s →
      subscribe_channel true truthy newSub force subs name = (.sub s, subs)) ∧
    (alookup subs name = none → truthy newSub = true →
      subscribe_channel true truthy newSub true subs name =
        (.sub newSub, dictSet subs name newSub) ∧
      subscribe_channel true truthy newSub true
          (dictSet subs name newSub) name =
        (.sub newSub, dictSet subs name newSub)) := by
  constructor
  · intro s hs
    simp [subscribe_channel, hs]
  · intro hnone htruthy
    constructor
    · simp [subscribe_channel, hnone, htruthy]
    · simp [subscribe_channel, alookup_dictSet_self subs name newSub]

/-- Witness for C8: subscribing twice to a fresh channel equals once. -/
theorem claim8_subscribe_idempotent_witness :
    subscribe_channel true (fun (_ : Nat) => true) 7 true []
        ("ch" : String).toList =
      (.sub 7, dictSet [] ("ch" : String).toList 7) ∧
    subscribe_channel true (fun (_ : Nat) => true) 7 true
        (dictSet [] ("ch" : String).toList 7) ("ch" : String).toList =
      (.sub 7, dictSet [] ("ch" : String).toList 7) :=
  (claim8_subscribe_idempotent (fun _ => true) 7 true [] _).2 (by decide) rfl

/-- Claim C9: with an empty email or password, both `sign_in`
implementations print only `Invalid email or password.` and return without
calling the backend, leaving `jwt_token` and the authenticated flag
unchanged. -/
theorem claim9_sign_in_guard (resp : Option Chars) (email password : Chars)
    (st : AuthSt) (h : email = [] ∨ password = []) :
    backend_sign_in resp email password st = (st, [.invalidCreds], false) ∧
    core_sign_in resp email password st = (st, [.invalidCreds], false) :=
  ⟨by unfold backend_sign_in; rw [if_pos h],
   by unfold core_sign_in; rw [if_pos h]⟩

/-- Witness for C9 at a concrete state with an empty email. -/
theorem claim9_sign_in_guard_witness :
    backend_sign_in (some ("tok" : String).toList) [] ("pw" : String).toList
      ⟨some ("j" : String).toList, true⟩ =
      (⟨some ("j" : String).toList, true⟩, [.invalidCreds], false) :=
  (claim9_sign_in_guard _ _ _ _ (Or.inl rfl)).1

/-! ## Beep id allocation lemmas -/

lemma alookup_le_maxKey (reg : Reg) (k : Nat)
    (h : (alookup reg k).isSome = true) : k ≤ maxKey reg := by
  induction reg with
  | nil => simp [alookup] at h
  | cons p rest ih =>
    obtain ⟨k1, b⟩ := p
    show k ≤ max k1 (maxKey rest)
    by_cases hk : k = k1
    · subst hk
      exact Nat.le_max_left _ _
    · rw [alookup, if_neg hk] at h
      exact le_trans (ih h) (Nat.le_max_right _ _)

lemma findFree_spec (reg : Reg) :
    ∀ (fuel i : Nat), (∃ j, i ≤ j ∧ j < i + fuel ∧ alookup reg j = none) →
      alookup reg (findFree reg i fuel) = none ∧
      i ≤ findFree reg i fuel ∧
      ∀ m, i ≤ m → m < findFree reg i fuel →
        (alookup reg m).isSome = true := by
  intro fuel
  induction fuel with
  | zero =>
    intro i hex
    obtain ⟨j, h1, h2, _⟩ := hex
    exact absurd h2 (by omega)
  | succ fuel ih =>
    intro i hex
    obtain ⟨j, hij, hlt, hfree⟩ := hex
    simp only [findFree]
    by_cases h : (alookup reg i).isSome = true
    · rw [if_pos h]
      have hji : j ≠ i := by
        intro he
        subst he
        rw [hfree] at h
        simp at h
      obtain ⟨hf, hge, hall⟩ := ih (i + 1) ⟨j, by omega, by omega, hfree⟩
      refine ⟨hf, by omega, fun m hm1 hm2 => ?_⟩
      by_cases hmi : m = i
      · subst hmi
        exact h
      · exact hall m (by omega) hm2
    · rw [if_neg h]
      refine ⟨?_, le_refl i, fun m hm1 hm2 => absurd hm2 (by omega)⟩
      cases hc : alookup reg i with
      | none => rfl
      | some b =>
        rw [hc] at h
        simp at h

/-- Claim C10: `get_beep_id` returns the smallest id not in the registry
(an empty registry is created first when absent, yielding id 0), and
`del_beep_id` removes exactly the given id. -/
theorem claim10_beep_id (reg : Reg) :
    (alookup reg (get_beep_id reg) = none ∧
      ∀ m, m < get_beep_id reg → (alookup reg m).isSome = true) ∧
    (ensure_beeping none = [] ∧ (∀ r, ensure_beeping (some r) = r) ∧
      get_beep_id (ensure_beeping none) = 0) ∧
    (∀ n, alookup (del_beep_id reg n) n = none ∧
      ∀ m, m ≠ n → alookup (del_beep_id reg n) m = alookup reg m) := by
  refine ⟨?_, ⟨rfl, fun r => rfl, by decide⟩, ?_⟩
  · have hfree : alookup reg (maxKey reg + 1) = none := by
      cases hc : alookup reg (maxKey reg + 1) with
      | none => rfl
      | some b =>
        have := alookup_le_maxKey reg (maxKey reg + 1) (by rw [hc]; rfl)
        omega
    obtain ⟨h1, -, h3⟩ := findFree_spec reg (maxKey reg + 2) 0
      ⟨maxKey reg + 1, by omega, by omega, hfree⟩
    exact ⟨h1, fun m hm => h3 m (by omega) hm⟩
  · intro n
    rw [del_beep_id]
    by_cases hp : (alookup reg n).isSome
    · rw [if_pos hp]
      exact ⟨alookup_filter_self reg n, fun m hm => alookup_filter_other reg n m hm⟩
    · rw [if_neg hp]
      refine ⟨?_, fun m _ => rfl⟩
      cases hc : alookup reg n with
      | none => rfl
      | some b =>
        rw [hc] at hp
        simp at hp

/-- Witness for C10 at concrete registries. -/
theorem claim10_beep_id_witness :
    alookup ([(0, true), (1, false)] : Reg)
      (get_beep_id [(0, true), (1, false)]) = none ∧
    alookup (del_beep_id [(0, true), (3, false)] 3) 0 = some true := by
  refine ⟨(claim10_beep_id [(0, true), (1, false)]).1.1, ?_⟩
  have h := ((claim10_beep_id [(0, true), (3, false)]).2.2 3).2 0 (by decide)
  rw [h]
  decide

end SupabaseLab
